import Mathlib

/-!
# Verification of the go-htmx response-header middleware

Shallow embedding of the `htmx` Go package: the response-header intent
record (`ResponseHeaders`), its directive serializer (`AddHeaders`,
`Location.HeaderValue`, `eventTriggersToHeaderValue`), the setter
functions (`Trigger`, `Retarget`, ...), and the flush middleware
(`responseWriterWrapper` / `NewMiddleware`).

Modelling conventions:
* Go strings are `String`; a Go `nil`-able `json.RawMessage` is
  `Option RawMsg`, where `RawMsg` pairs the raw bytes with the
  interface-level fact of whether they parse as JSON (the behaviour of
  the external `encoding/json` collaborator on raw messages depends only
  on that fact).
* A Go `map[Event]JSON` is a key-sorted association list
  (`TriggerMap`); a possibly-`nil` map is `Option TriggerMap`.
  `encoding/json` marshals maps with sorted keys, so the sorted list is
  also the marshalling order.
* Go panics are modelled as the `Except.error` branch; the returned
  `error` values of setters are modelled as an `Option String`
  component of the result.
* `encoding/json.Marshal` on an arbitrary user value (`any`) is an
  external collaborator: it is modelled by `GoValue`/`jsonMarshal`,
  which either yields (valid) JSON bytes or an encoding error.
-/

set_option maxHeartbeats 1000000

namespace Htmx

/-- Model of a Go `json.RawMessage` (a byte slice): the raw bytes
together with whether they parse as JSON, which is the only fact about
the bytes that the external `encoding/json` collaborator's behaviour
depends on. -/
structure RawMsg where
  bytes : String
  valid : Bool
deriving DecidableEq

/-- Model of the `JSON` alias of the Go source
(`JSON = json.RawMessage`): a raw message that may be `nil`. -/
abbrev JSON := Option RawMsg

/-- Model of a Go `any` value handed to `encoding/json.Marshal`: either
a value that marshals to the given bytes, or one on which `Marshal`
fails with the given error message (e.g. a channel or function value). -/
inductive GoValue where
  | jsonable (bytes : String)
  | unmarshalable (msg : String)
deriving DecidableEq

/-- Interface model of `encoding/json.Marshal` on an arbitrary value.
Bytes produced by a successful `Marshal` are always valid JSON. -/
def jsonMarshal : GoValue → Except String RawMsg
  | .jsonable b => .ok ⟨b, true⟩
  | .unmarshalable m => .error m

/-- Interface model of JSON string escaping done by `encoding/json`. -/
def jsonEscapeChar (c : Char) : String :=
  if c = '"' then "\\\"" else if c = '\\' then "\\\\" else String.singleton c

/-- Interface model of `encoding/json` encoding of a string literal. -/
def jsonQuote (s : String) : String :=
  "\"" ++ String.join (s.toList.map jsonEscapeChar) ++ "\""

/-- `encoding/json` marshals a `nil` `json.RawMessage` as `null` and a
non-`nil` one as its raw bytes. -/
def rawOrNull : JSON → String
  | none => "null"
  | some r => r.bytes

/-- A possibly-`nil` raw message marshals without error: `nil` becomes
`null`, non-`nil` bytes must be valid JSON. -/
def RawOptValid : JSON → Bool
  | none => true
  | some r => r.valid

/-- Model of the Go `map[Event]JSON` trigger maps of `ResponseHeaders`:
a key-sorted association list from event names to optional payloads. -/
abbrev TriggerMap := List (String × JSON)

/-- Model of the Go map assignment `m[name] = v` on an allocated map:
insert keeping keys sorted, replacing an existing entry for the key. -/
def mapInsert (k : String) (v : JSON) : TriggerMap → TriggerMap
  | [] => [(k, v)]
  | p :: rest =>
    if k < p.1 then (k, v) :: p :: rest
    else if k = p.1 then (k, v) :: rest
    else p :: mapInsert k v rest

/-- Model of the Go map assignment `m[name] = v` on a possibly-`nil`
map: assigning to a `nil` map is a run-time panic. -/
def mapAssign (m : Option TriggerMap) (k : String) (v : JSON) :
    Except String (Option TriggerMap) :=
  match m with
  | none => .error "assignment to entry in nil map"
  | some l => .ok (some (mapInsert k v l))

/-- Go `len` of a possibly-`nil` map (a `nil` map has length 0). -/
def triggerLen : Option TriggerMap → Nat
  | none => 0
  | some l => l.length

/-- Interface model of `encoding/json.Marshal` on a
`map[string]json.RawMessage`: a JSON object in key order, `nil`
payloads as `null`; fails iff some non-`nil` payload is invalid JSON. -/
def marshalRawMap (l : TriggerMap) : Except String String :=
  if l.all (fun kv => RawOptValid kv.2) then
    .ok ("\x7b" ++
      String.intercalate "," (l.map (fun kv => jsonQuote kv.1 ++ ":" ++ rawOrNull kv.2)) ++
      "\x7d")
  else
    .error "json: error calling MarshalJSON for type json.RawMessage"

/-- The `strings.Builder` loop of `eventTriggersToHeaderValue`: write
each event name, preceded by a comma whenever the builder is already
non-empty. -/
def commaJoinAux (b : String) : List (String × JSON) → String
  | [] => b
  | kv :: rest =>
    commaJoinAux (if 0 < b.length then b ++ "," ++ kv.1 else b ++ kv.1) rest

/-- The full builder loop of `eventTriggersToHeaderValue`, started on an
empty builder. -/
def commaJoin (l : TriggerMap) : String := commaJoinAux "" l

/-- The `eventLen` accumulation loop of `eventTriggersToHeaderValue`:
`eventLen += len(event) + len(",")`. -/
def eventLenOf (l : TriggerMap) : Nat :=
  l.foldl (fun n kv => n + kv.1.length + 1) 0

/-- Embedding of `eventTriggersToHeaderValue` (htmx.go): if any entry
carries a payload, marshal the whole map as one JSON object (a marshal
failure there is `panic`ked); otherwise comma-join the event names with
a `strings.Builder`, whose `Grow(eventLen - 1)` call panics when the
map is empty (`eventLen - 1` is negative). -/
def eventTriggersToHeaderValue (ts : Option TriggerMap) : Except String String :=
  let l := ts.getD []
  let hasData := l.any (fun kv => kv.2.isSome)
  if hasData then
    marshalRawMap l
  else if eventLenOf l = 0 then
    .error "strings.Builder.Grow: negative count"
  else
    .ok (commaJoin l)

/-- The value `eventTriggersToHeaderValue` yields when it does not
panic: plain comma-joined names when no entry has a payload, otherwise
the JSON object of the whole map. -/
def triggersValueOk (l : TriggerMap) : String :=
  if l.all (fun kv => kv.2.isNone) then commaJoin l
  else
    "\x7b" ++
      String.intercalate "," (l.map (fun kv => jsonQuote kv.1 ++ ":" ++ rawOrNull kv.2)) ++
      "\x7d"

/-- Embedding of the `Location` struct (htmx.go): the structured
`HX-Location` descriptor. `Values` is a `nil`-able `json.RawMessage`,
`Headers` a `map[string]string` (modelled as a key/value list). -/
structure Location where
  Path : String
  Source : String
  Event : String
  Handler : String
  Target : String
  Swap : String
  Values : JSON
  Headers : List (String × String)
deriving DecidableEq

/-- Interface model of `encoding/json.Marshal` on the
`map[string]string` `Headers` field. -/
def headersObjString (hs : List (String × String)) : String :=
  "\x7b" ++
    String.intercalate "," (hs.map (fun p => jsonQuote p.1 ++ ":" ++ jsonQuote p.2)) ++
    "\x7d"

/-- The condition of the short-form branch of `Location.HeaderValue`:
every sub-field other than the path is empty/`nil`. -/
def locationShortForm (loc : Location) : Bool :=
  decide (loc.Source = "" ∧ loc.Event = "" ∧ loc.Handler = "" ∧ loc.Target = "" ∧
    loc.Swap = "" ∧ loc.Values = none ∧ loc.Headers = [])

/-- Interface model of `encoding/json.Marshal` on the `Location`
struct: fields in declaration order, each tagged `omitempty` (so a
field at its zero value is omitted), with the `Values` raw message
embedded verbatim. -/
def locationObjString (loc : Location) : String :=
  "\x7b" ++
    String.intercalate "," (
      (if loc.Path = "" then [] else [jsonQuote "path" ++ ":" ++ jsonQuote loc.Path]) ++
      (if loc.Source = "" then [] else [jsonQuote "source" ++ ":" ++ jsonQuote loc.Source]) ++
      (if loc.Event = "" then [] else [jsonQuote "event" ++ ":" ++ jsonQuote loc.Event]) ++
      (if loc.Handler = "" then [] else [jsonQuote "handler" ++ ":" ++ jsonQuote loc.Handler]) ++
      (if loc.Target = "" then [] else [jsonQuote "target" ++ ":" ++ jsonQuote loc.Target]) ++
      (if loc.Swap = "" then [] else [jsonQuote "swap" ++ ":" ++ jsonQuote loc.Swap]) ++
      (match loc.Values with
       | none => []
       | some r => if r.bytes = "" then [] else [jsonQuote "values" ++ ":" ++ r.bytes]) ++
      (if loc.Headers = [] then [] else [jsonQuote "headers" ++ ":" ++ headersObjString loc.Headers])) ++
    "\x7d"

/-- `encoding/json.Marshal` on a `Location` fails iff its non-omitted
`Values` raw message is invalid JSON. -/
def locationValuesBad (loc : Location) : Bool :=
  match loc.Values with
  | none => false
  | some r => if r.bytes = "" then false else !r.valid

/-- Interface model of `encoding/json.Marshal` on a `Location`. -/
def locationMarshal (loc : Location) : Except String String :=
  if locationValuesBad loc then
    .error "json: error calling MarshalJSON for type json.RawMessage"
  else
    .ok (locationObjString loc)

/-- Embedding of `Location.HeaderValue` (htmx.go): emit the bare path
when every other sub-field is empty/`nil`, otherwise marshal the whole
struct (a marshal failure is `panic`ked). -/
def Location.HeaderValue (loc : Location) : Except String String :=
  if loc.Source = "" ∧ loc.Event = "" ∧ loc.Handler = "" ∧ loc.Target = "" ∧
      loc.Swap = "" ∧ loc.Values = none ∧ loc.Headers = [] then
    .ok loc.Path
  else
    locationMarshal loc

/-- The value `Location.HeaderValue` yields when it does not panic. -/
def locationValueOk (loc : Location) : String :=
  if locationShortForm loc then loc.Path else locationObjString loc

/-- Embedding of the `ResponseHeaders` struct (htmx.go): the
per-request header intent record. -/
structure ResponseHeaders where
  Location : Location
  PushURL : String
  Redirect : String
  Refresh : Bool
  ReplaceURL : String
  Reswap : String
  Retarget : String
  Reselect : String
  Trigger : Option TriggerMap
  TriggerAfterSettle : Option TriggerMap
  TriggerAfterSwap : Option TriggerMap
deriving DecidableEq

/-- A response-header collection, as touched by `http.Header.Add`: the
ordered list of (name, value) header lines added so far. -/
abbrev HeaderList := List (String × String)

/-- Model of `http.Header.Add`: append one header line. -/
def headerAdd (header : HeaderList) (k v : String) : HeaderList :=
  header ++ [(k, v)]

/-- The `HX-Location` block of `AddHeaders`. -/
def addLocationHeader (h : ResponseHeaders) (header : HeaderList) :
    Except String HeaderList :=
  if h.Location.Path ≠ "" then
    match h.Location.HeaderValue with
    | .ok v => .ok (headerAdd header "HX-Location" v)
    | .error e => .error e
  else .ok header

/-- The `HX-Push-Url` block of `AddHeaders`. -/
def addPushURLHeader (h : ResponseHeaders) (header : HeaderList) : HeaderList :=
  if h.PushURL ≠ "" then headerAdd header "HX-Push-Url" h.PushURL else header

/-- The `HX-Redirect` block of `AddHeaders`. -/
def addRedirectHeader (h : ResponseHeaders) (header : HeaderList) : HeaderList :=
  if h.Redirect ≠ "" then headerAdd header "HX-Redirect" h.Redirect else header

/-- The `HX-Refresh` block of `AddHeaders`. -/
def addRefreshHeader (h : ResponseHeaders) (header : HeaderList) : HeaderList :=
  if h.Refresh then headerAdd header "HX-Refresh" "true" else header

/-- The `HX-Replace-Url` block of `AddHeaders`. -/
def addReplaceURLHeader (h : ResponseHeaders) (header : HeaderList) : HeaderList :=
  if h.ReplaceURL ≠ "" then headerAdd header "HX-Replace-Url" h.ReplaceURL else header

/-- The `HX-Reswap` block of `AddHeaders`. -/
def addReswapHeader (h : ResponseHeaders) (header : HeaderList) : HeaderList :=
  if h.Reswap ≠ "" then headerAdd header "HX-Reswap" h.Reswap else header

/-- The `HX-Retarget` block of `AddHeaders`. -/
def addRetargetHeader (h : ResponseHeaders) (header : HeaderList) : HeaderList :=
  if h.Retarget ≠ "" then headerAdd header "HX-Retarget" h.Retarget else header

/-- The `HX-Reselect` block of `AddHeaders`. -/
def addReselectHeader (h : ResponseHeaders) (header : HeaderList) : HeaderList :=
  if h.Reselect ≠ "" then headerAdd header "HX-Reselect" h.Reselect else header

/-- The `HX-Trigger` block of `AddHeaders`. -/
def addTriggerHeader (h : ResponseHeaders) (header : HeaderList) :
    Except String HeaderList :=
  if 0 < triggerLen h.Trigger then
    match eventTriggersToHeaderValue h.Trigger with
    | .ok v => .ok (headerAdd header "HX-Trigger" v)
    | .error e => .error e
  else .ok header

/-- The `HX-Trigger-After-Settle` block of `AddHeaders`. -/
def addTriggerAfterSettleHeader (h : ResponseHeaders) (header : HeaderList) :
    Except String HeaderList :=
  if 0 < triggerLen h.TriggerAfterSettle then
    match eventTriggersToHeaderValue h.TriggerAfterSettle with
    | .ok v => .ok (headerAdd header "HX-Trigger-After-Settle" v)
    | .error e => .error e
  else .ok header

/-- The `HX-Trigger-After-Swap` block of `AddHeaders`. -/
def addTriggerAfterSwapHeader (h : ResponseHeaders) (header : HeaderList) :
    Except String HeaderList :=
  if 0 < triggerLen h.TriggerAfterSwap then
    match eventTriggersToHeaderValue h.TriggerAfterSwap with
    | .ok v => .ok (headerAdd header "HX-Trigger-After-Swap" v)
    | .error e => .error e
  else .ok header

/-- Embedding of `ResponseHeaders.AddHeaders` (htmx.go): the flush
serializer, one conditional `header.Add` block per field, in source
order. A panic in a block aborts the whole pass. -/
def ResponseHeaders.AddHeaders (h : ResponseHeaders) (header : HeaderList) :
    Except String HeaderList :=
  match addLocationHeader h header with
  | .error e => .error e
  | .ok header =>
    let header := addPushURLHeader h header
    let header := addRedirectHeader h header
    let header := addRefreshHeader h header
    let header := addReplaceURLHeader h header
    let header := addReswapHeader h header
    let header := addRetargetHeader h header
    let header := addReselectHeader h header
    match addTriggerHeader h header with
    | .error e => .error e
    | .ok header =>
      match addTriggerAfterSettleHeader h header with
      | .error e => .error e
      | .ok header => addTriggerAfterSwapHeader h header

/-- The header lines contributed by the `HX-Location` block. -/
def locSeg (h : ResponseHeaders) : HeaderList :=
  if h.Location.Path ≠ "" then [("HX-Location", locationValueOk h.Location)] else []

/-- The header lines contributed by the `HX-Push-Url` block. -/
def pushSeg (h : ResponseHeaders) : HeaderList :=
  if h.PushURL ≠ "" then [("HX-Push-Url", h.PushURL)] else []

/-- The header lines contributed by the `HX-Redirect` block. -/
def redirectSeg (h : ResponseHeaders) : HeaderList :=
  if h.Redirect ≠ "" then [("HX-Redirect", h.Redirect)] else []

/-- The header lines contributed by the `HX-Refresh` block. -/
def refreshSeg (h : ResponseHeaders) : HeaderList :=
  if h.Refresh then [("HX-Refresh", "true")] else []

/-- The header lines contributed by the `HX-Replace-Url` block. -/
def replaceSeg (h : ResponseHeaders) : HeaderList :=
  if h.ReplaceURL ≠ "" then [("HX-Replace-Url", h.ReplaceURL)] else []

/-- The header lines contributed by the `HX-Reswap` block. -/
def reswapSeg (h : ResponseHeaders) : HeaderList :=
  if h.Reswap ≠ "" then [("HX-Reswap", h.Reswap)] else []

/-- The header lines contributed by the `HX-Retarget` block. -/
def retargetSeg (h : ResponseHeaders) : HeaderList :=
  if h.Retarget ≠ "" then [("HX-Retarget", h.Retarget)] else []

/-- The header lines contributed by the `HX-Reselect` block. -/
def reselectSeg (h : ResponseHeaders) : HeaderList :=
  if h.Reselect ≠ "" then [("HX-Reselect", h.Reselect)] else []

/-- The header lines contributed by the `HX-Trigger` block. -/
def triggerSeg (h : ResponseHeaders) : HeaderList :=
  if 0 < triggerLen h.Trigger then
    [("HX-Trigger", triggersValueOk (h.Trigger.getD []))]
  else []

/-- The header lines contributed by the `HX-Trigger-After-Settle` block. -/
def settleSeg (h : ResponseHeaders) : HeaderList :=
  if 0 < triggerLen h.TriggerAfterSettle then
    [("HX-Trigger-After-Settle", triggersValueOk (h.TriggerAfterSettle.getD []))]
  else []

/-- The header lines contributed by the `HX-Trigger-After-Swap` block. -/
def swapSeg (h : ResponseHeaders) : HeaderList :=
  if 0 < triggerLen h.TriggerAfterSwap then
    [("HX-Trigger-After-Swap", triggersValueOk (h.TriggerAfterSwap.getD []))]
  else []

/-- The full set of header lines one flush pass emits. -/
def pairsOf (h : ResponseHeaders) : HeaderList :=
  locSeg h ++ pushSeg h ++ redirectSeg h ++ refreshSeg h ++ replaceSeg h ++
    reswapSeg h ++ retargetSeg h ++ reselectSeg h ++ triggerSeg h ++
    settleSeg h ++ swapSeg h

/-- The wire header names of the fields not at their empty sentinel, in
emission order. -/
def activeNames (h : ResponseHeaders) : List String :=
  (if h.Location.Path ≠ "" then ["HX-Location"] else []) ++
  (if h.PushURL ≠ "" then ["HX-Push-Url"] else []) ++
  (if h.Redirect ≠ "" then ["HX-Redirect"] else []) ++
  (if h.Refresh then ["HX-Refresh"] else []) ++
  (if h.ReplaceURL ≠ "" then ["HX-Replace-Url"] else []) ++
  (if h.Reswap ≠ "" then ["HX-Reswap"] else []) ++
  (if h.Retarget ≠ "" then ["HX-Retarget"] else []) ++
  (if h.Reselect ≠ "" then ["HX-Reselect"] else []) ++
  (if 0 < triggerLen h.Trigger then ["HX-Trigger"] else []) ++
  (if 0 < triggerLen h.TriggerAfterSettle then ["HX-Trigger-After-Settle"] else []) ++
  (if 0 < triggerLen h.TriggerAfterSwap then ["HX-Trigger-After-Swap"] else [])

/-- All payloads stored in a possibly-`nil` trigger map are valid JSON
(or absent). -/
def payloadsValid (m : Option TriggerMap) : Bool :=
  (m.getD []).all (fun kv => RawOptValid kv.2)

/-- Every raw payload stored in the record is valid JSON — which is the
case for every payload produced by `jsonMarshal` at setter time. -/
def Wellformed (h : ResponseHeaders) : Bool :=
  RawOptValid h.Location.Values && payloadsValid h.Trigger &&
    payloadsValid h.TriggerAfterSettle && payloadsValid h.TriggerAfterSwap

/-- The three trigger maps of the record are allocated (non-`nil`). -/
def Allocated (h : ResponseHeaders) : Bool :=
  h.Trigger.isSome && h.TriggerAfterSettle.isSome && h.TriggerAfterSwap.isSome

/-- The record `NewMiddleware` (middleware.go) attaches to each
request: the three trigger maps freshly `make`-allocated, every other
field left at its Go zero value. -/
def freshRecord : ResponseHeaders where
  Location := ⟨"", "", "", "", "", "", none, []⟩
  PushURL := ""
  Redirect := ""
  Refresh := false
  ReplaceURL := ""
  Reswap := ""
  Retarget := ""
  Reselect := ""
  Trigger := some []
  TriggerAfterSettle := some []
  TriggerAfterSwap := some []

/-- Embedding of the lookup inside `Response` (middleware.go):
`r.Context().Value(ctxKey{}).(*ResponseHeaders)`. The context carries
the attached record, or nothing when the middleware never ran; the
type assertion on a missing value is a run-time panic. -/
def Response (ctx : Option ResponseHeaders) : Except String ResponseHeaders :=
  match ctx with
  | some h => .ok h
  | none => .error "interface conversion: interface \x7b\x7d is nil, not *htmx.ResponseHeaders"

/-- Embedding of `LocationPath` (global.go): set the location to just
the path, discarding all other location values. -/
def LocationPath (path : String) (h : ResponseHeaders) : ResponseHeaders :=
  { h with Location := ⟨path, "", "", "", "", "", none, []⟩ }

/-- Embedding of `FullLocation` (global.go): overwrite the record's
whole `Location` field. -/
def FullLocation (loc : Location) (h : ResponseHeaders) : ResponseHeaders :=
  { h with Location := loc }

/-- Embedding of `PushURL` (global.go): overwrite the record's
`PushURL` field. -/
def PushURL (u : String) (h : ResponseHeaders) : ResponseHeaders :=
  { h with PushURL := u }

/-- Embedding of `PreventPushURL` (global.go): set `PushURL` to the
literal `false`. -/
def PreventPushURL (h : ResponseHeaders) : ResponseHeaders :=
  { h with PushURL := "false" }

/-- Embedding of `Redirect` (global.go): overwrite the record's
`Redirect` field. -/
def Redirect (u : String) (h : ResponseHeaders) : ResponseHeaders :=
  { h with Redirect := u }

/-- Embedding of `Refresh` (global.go): overwrite the record's
`Refresh` field. -/
def Refresh (b : Bool) (h : ResponseHeaders) : ResponseHeaders :=
  { h with Refresh := b }

/-- Embedding of `ReplaceURL` (global.go): overwrite the record's
`ReplaceURL` field. -/
def ReplaceURL (u : String) (h : ResponseHeaders) : ResponseHeaders :=
  { h with ReplaceURL := u }

/-- Embedding of `PreventReplaceURL` (global.go): set `ReplaceURL` to
the literal `false`. -/
def PreventReplaceURL (h : ResponseHeaders) : ResponseHeaders :=
  { h with ReplaceURL := "false" }

/-- Embedding of `Reswap` (global.go): overwrite the record's `Reswap`
field. -/
def Reswap (s : String) (h : ResponseHeaders) : ResponseHeaders :=
  { h with Reswap := s }

/-- Embedding of `Retarget` (global.go): overwrite the record's
`Retarget` field. -/
def Retarget (sel : String) (h : ResponseHeaders) : ResponseHeaders :=
  { h with Retarget := sel }

/-- Embedding of `Reselect` (global.go): overwrite the record's
`Reselect` field. -/
def Reselect (sel : String) (h : ResponseHeaders) : ResponseHeaders :=
  { h with Reselect := sel }

/-- Embedding of `Trigger` (global.go): marshal the payload (an error
is returned to the caller, leaving the record untouched; `nil` data
marshals to a `nil` raw message without calling the encoder), then
assign into the `Trigger` map. The outer `Except` is the nil-map
assignment panic; the inner `Option String` is the returned error. -/
def Trigger (h : ResponseHeaders) (name : String) (data : Option GoValue) :
    Except String (ResponseHeaders × Option String) :=
  match data with
  | none =>
    match mapAssign h.Trigger name none with
    | .ok m => .ok ({ h with Trigger := m }, none)
    | .error e => .error e
  | some v =>
    match jsonMarshal v with
    | .error e => .ok (h, some e)
    | .ok r =>
      match mapAssign h.Trigger name (some r) with
      | .ok m => .ok ({ h with Trigger := m }, none)
      | .error e => .error e

/-- Embedding of `TriggerAfterSettle` (global.go). -/
def TriggerAfterSettle (h : ResponseHeaders) (name : String) (data : Option GoValue) :
    Except String (ResponseHeaders × Option String) :=
  match data with
  | none =>
    match mapAssign h.TriggerAfterSettle name none with
    | .ok m => .ok ({ h with TriggerAfterSettle := m }, none)
    | .error e => .error e
  | some v =>
    match jsonMarshal v with
    | .error e => .ok (h, some e)
    | .ok r =>
      match mapAssign h.TriggerAfterSettle name (some r) with
      | .ok m => .ok ({ h with TriggerAfterSettle := m }, none)
      | .error e => .error e

/-- Embedding of `TriggerAfterSwap` (global.go). -/
def TriggerAfterSwap (h : ResponseHeaders) (name : String) (data : Option GoValue) :
    Except String (ResponseHeaders × Option String) :=
  match data with
  | none =>
    match mapAssign h.TriggerAfterSwap name none with
    | .ok m => .ok ({ h with TriggerAfterSwap := m }, none)
    | .error e => .error e
  | some v =>
    match jsonMarshal v with
    | .error e => .ok (h, some e)
    | .ok r =>
      match mapAssign h.TriggerAfterSwap name (some r) with
      | .ok m => .ok ({ h with TriggerAfterSwap := m }, none)
      | .error e => .error e

/-- Embedding of the `LocationData` struct (global.go): like
`Location`, but with a user-supplied arbitrary (`any`) `Values`
payload that is supposed to be marshalled at setter time. -/
structure LocationData where
  Path : String
  Source : String
  Event : String
  Handler : String
  Target : String
  Swap : String
  Values : Option GoValue
  Headers : List (String × String)
deriving DecidableEq

/-- Interface model of `encoding/json.Marshal` applied to the `any`
field `LocationData.Values` (`Marshal(nil)` yields `null`). -/
def jsonMarshalAny : Option GoValue → Except String RawMsg
  | none => .ok ⟨"null", true⟩
  | some v => jsonMarshal v

/-- Embedding of `LocationData.toHeader` (global.go), exactly as
written: the header struct `h` is built without `Values`, and the
marshalling branch is guarded by `h.Values != nil` — a test of the
freshly-built header's own (always-`nil`) field, not of `d.Values`. -/
def LocationData.toHeader (d : LocationData) : Location × Option String :=
  let h : Location := ⟨d.Path, d.Source, d.Event, d.Handler, d.Target, d.Swap, none, d.Headers⟩
  if h.Values.isSome then
    match jsonMarshalAny d.Values with
    | .error e => (h, some ("HX-Location: Values: " ++ e))
    | .ok r => ({ h with Values := some r }, none)
  else
    (h, none)

/-- Embedding of the `RequestHeaders` struct (request.go): the typed
snapshot of the inbound htmx headers. -/
structure RequestHeaders where
  Boosted : Bool
  CurrentURL : String
  HistoryRestoreRequest : Bool
  Prompt : String
  Target : String
  TriggerName : String
  Trigger : String
deriving DecidableEq

/-- Embedding of `Request` (request.go). The inbound header collection
is modelled by its `Get` function (the first value stored for a name,
or `""`). -/
def Request (get : String → String) : Option RequestHeaders :=
  if get "HX-Request" ≠ "true" then
    none
  else
    some
      { Boosted := get "HX-Boosted" == "true"
        CurrentURL := get "HX-Current-Url"
        HistoryRestoreRequest := get "HX-History-Restore-Request" == "true"
        Prompt := get "HX-Prompt"
        Target := get "HX-Target"
        TriggerName := get "HX-Trigger-Name"
        Trigger := get "HX-Trigger" }

/-- One setter invocation a handler can perform on the attached record
(the exported setter functions of global.go). -/
inductive SetterOp where
  | locationPath (path : String)
  | fullLocation (loc : Location)
  | pushURL (u : String)
  | preventPushURL
  | redirect (u : String)
  | refresh (b : Bool)
  | replaceURL (u : String)
  | preventReplaceURL
  | reswap (s : String)
  | retarget (sel : String)
  | reselect (sel : String)
  | trigger (name : String) (data : Option GoValue)
  | triggerAfterSettle (name : String) (data : Option GoValue)
  | triggerAfterSwap (name : String) (data : Option GoValue)
deriving DecidableEq

/-- The effect of one setter call on the record. A returned marshalling
error leaves the record unchanged (the caller may ignore it); the
`Except.error` branch is a nil-map assignment panic. -/
def applySetter (op : SetterOp) (h : ResponseHeaders) : Except String ResponseHeaders :=
  match op with
  | .locationPath p => .ok (LocationPath p h)
  | .fullLocation loc => .ok (FullLocation loc h)
  | .pushURL u => .ok (PushURL u h)
  | .preventPushURL => .ok (PreventPushURL h)
  | .redirect u => .ok (Redirect u h)
  | .refresh b => .ok (Refresh b h)
  | .replaceURL u => .ok (ReplaceURL u h)
  | .preventReplaceURL => .ok (PreventReplaceURL h)
  | .reswap s => .ok (Reswap s h)
  | .retarget sel => .ok (Retarget sel h)
  | .reselect sel => .ok (Reselect sel h)
  | .trigger name data =>
    match Trigger h name data with
    | .ok hd => .ok hd.1
    | .error e => .error e
  | .triggerAfterSettle name data =>
    match TriggerAfterSettle h name data with
    | .ok hd => .ok hd.1
    | .error e => .error e
  | .triggerAfterSwap name data =>
    match TriggerAfterSwap h name data with
    | .ok hd => .ok hd.1
    | .error e => .error e

/-- The record a setter call leaves behind (identical to `applySetter`
whenever the latter does not panic). -/
def applySetterD (op : SetterOp) (h : ResponseHeaders) : ResponseHeaders :=
  match applySetter op h with
  | .ok h2 => h2
  | .error _ => h

/-- A `fullLocation` op only stores valid JSON in `Location.Values`
(the payload of every other op is valid by construction, since it is
produced by `jsonMarshal`). -/
def setterWF : SetterOp → Bool
  | .fullLocation loc => RawOptValid loc.Values
  | _ => true

/-- Model of the state of the `responseWriterWrapper` (middleware.go)
together with the underlying transport: the response header collection,
the body chunks written through, the status codes committed, and the
`wroteHeaders` flag. -/
structure Wrapper where
  hdr : HeaderList
  body : List String
  status : List Nat
  wroteHeaders : Bool
deriving DecidableEq

/-- Embedding of `responseWriterWrapper.writeHXHeader` (middleware.go):
a no-op once `wroteHeaders` is set; otherwise serialize the record into
the response header collection and set the flag. -/
def writeHXHeader (h : ResponseHeaders) (w : Wrapper) : Except String Wrapper :=
  if w.wroteHeaders then .ok w
  else
    match h.AddHeaders w.hdr with
    | .ok out => .ok { w with hdr := out, wroteHeaders := true }
    | .error e => .error e

/-- One step the handler chain performs while the middleware is
installed: mutate the attached record through a setter, write a body
chunk (`responseWriterWrapper.Write`) or commit a status code
(`responseWriterWrapper.WriteHeader`). -/
inductive HandlerOp where
  | set (op : SetterOp)
  | write (data : String)
  | writeHeader (code : Nat)
deriving DecidableEq

/-- The handler chain running against the wrapped response writer:
`Write` and `WriteHeader` call `writeHXHeader` before delegating to the
underlying transport. -/
def serve : List HandlerOp → ResponseHeaders → Wrapper →
    Except String (ResponseHeaders × Wrapper)
  | [], h, w => .ok (h, w)
  | .set op :: ops, h, w =>
    match applySetter op h with
    | .ok h2 => serve ops h2 w
    | .error e => .error e
  | .write d :: ops, h, w =>
    match writeHXHeader h w with
    | .ok w2 => serve ops h { w2 with body := w2.body ++ [d] }
    | .error e => .error e
  | .writeHeader c :: ops, h, w =>
    match writeHXHeader h w with
    | .ok w2 => serve ops h { w2 with status := w2.status ++ [c] }
    | .error e => .error e

/-- Run the handler chain from a given record and wrapper state, then
perform the end-of-chain `ww.writeHXHeader()` call of `NewMiddleware`. -/
def handleFrom (ops : List HandlerOp) (h : ResponseHeaders) (w : Wrapper) :
    Except String Wrapper :=
  match serve ops h w with
  | .ok hw => writeHXHeader hw.1 hw.2
  | .error e => .error e

/-- Embedding of the middleware handler built by `NewMiddleware`
(middleware.go): attach a fresh record, wrap the response writer with
`wroteHeaders = false`, run the handler chain, and flush at end of
chain as a safety net. -/
def middlewareHandle (ops : List HandlerOp) (hdr0 : HeaderList) :
    Except String Wrapper :=
  handleFrom ops freshRecord ⟨hdr0, [], [], false⟩

/-- The record as it stands when the first flush trigger fires: the
first `Write` or `WriteHeader` call, or the end of the chain when
neither occurs. -/
def recordAtFlush : List HandlerOp → ResponseHeaders → ResponseHeaders
  | [], h => h
  | .set op :: ops, h => recordAtFlush ops (applySetterD op h)
  | .write _ :: _, h => h
  | .writeHeader _ :: _, h => h

/-- All body chunks the handler chain writes (they always pass through
to the transport). -/
def bodyOf : List HandlerOp → List String
  | [] => []
  | .write d :: ops => d :: bodyOf ops
  | .set _ :: ops => bodyOf ops
  | .writeHeader _ :: ops => bodyOf ops

/-- All status codes the handler chain commits. -/
def statusOf : List HandlerOp → List Nat
  | [] => []
  | .writeHeader c :: ops => c :: statusOf ops
  | .set _ :: ops => statusOf ops
  | .write _ :: ops => statusOf ops

/-- Every setter in the chain stores only valid JSON (automatic for all
ops except `fullLocation`, whose raw `Values` bytes are user-supplied). -/
def opsWF (ops : List HandlerOp) : Bool :=
  ops.all fun op =>
    match op with
    | .set s => setterWF s
    | _ => true

/-! ## Lemmas about the serializer -/

theorem string_pos_of_ne_empty {s : String} (h : s ≠ "") : 0 < s.length := by
  cases s with
  | mk data =>
    cases data with
    | nil => simp at h
    | cons c t => simp [String.length]

theorem commaJoinAux_go (l : List (String × JSON)) :
    ∀ acc : String, 0 < acc.length →
      commaJoinAux acc l = String.intercalate.go acc "," (l.map Prod.fst) := by
  induction l with
  | nil => intro acc _; rfl
  | cons kv rest ih =>
    intro acc hacc
    have hstep : commaJoinAux acc (kv :: rest) = commaJoinAux (acc ++ "," ++ kv.1) rest := by
      simp [commaJoinAux, hacc]
    rw [hstep]
    have hlen : 0 < (acc ++ "," ++ kv.1).length := by
      simp only [String.length_append]
      omega
    rw [ih _ hlen]
    rfl

theorem commaJoin_eq_intercalate (l : TriggerMap) (hne : l ≠ [])
    (hk : ∀ p ∈ l, p.1 ≠ "") :
    commaJoin l = String.intercalate "," (l.map Prod.fst) := by
  match l with
  | [] => exact absurd rfl hne
  | kv :: rest =>
    have h1 : commaJoin (kv :: rest) = commaJoinAux kv.1 rest := by
      simp [commaJoin, commaJoinAux]
    have hpos : 0 < kv.1.length :=
      string_pos_of_ne_empty (hk kv (List.mem_cons_self kv rest))
    rw [h1, commaJoinAux_go rest kv.1 hpos]
    rfl

theorem eventLen_foldl_le (l : TriggerMap) :
    ∀ n : Nat, n ≤ List.foldl (fun n kv => n + kv.1.length + 1) n l := by
  induction l with
  | nil => intro n; simp
  | cons kv rest ih =>
    intro n
    calc n ≤ n + kv.1.length + 1 := by omega
    _ ≤ _ := ih (n + kv.1.length + 1)

theorem eventLenOf_pos {l : TriggerMap} (hne : l ≠ []) : 0 < eventLenOf l := by
  match l with
  | [] => exact absurd rfl hne
  | kv :: rest =>
    have h := eventLen_foldl_le rest (0 + kv.1.length + 1)
    simp only [eventLenOf, List.foldl_cons]
    omega

theorem any_isSome_eq_not_all_isNone (l : TriggerMap) :
    l.any (fun kv => kv.2.isSome) = !l.all (fun kv => kv.2.isNone) := by
  induction l with
  | nil => rfl
  | cons kv rest ih =>
    cases h2 : kv.2 <;> simp [List.any_cons, List.all_cons, ih, h2]

theorem eventTriggers_ok {l : TriggerMap}
    (hv : l.all (fun kv => RawOptValid kv.2) = true) (hne : l ≠ []) :
    eventTriggersToHeaderValue (some l) = .ok (triggersValueOk l) := by
  by_cases hD : l.all (fun kv => kv.2.isNone) = true
  · have hAny : l.any (fun kv => kv.2.isSome) = false := by
      rw [any_isSome_eq_not_all_isNone, hD]; rfl
    have hLen : ¬ eventLenOf l = 0 := by
      have := eventLenOf_pos hne; omega
    simp [eventTriggersToHeaderValue, hAny, hLen, triggersValueOk, hD]
  · have hAll : l.all (fun kv => kv.2.isNone) = false := by
      cases hAll : l.all (fun kv => kv.2.isNone)
      · rfl
      · exact absurd hAll hD
    have hAny : l.any (fun kv => kv.2.isSome) = true := by
      rw [any_isSome_eq_not_all_isNone, hAll]; rfl
    simp [eventTriggersToHeaderValue, hAny, marshalRawMap, hv, triggersValueOk, hAll]

theorem headerValue_ok {loc : Location} (hv : RawOptValid loc.Values = true) :
    loc.HeaderValue = .ok (locationValueOk loc) := by
  have hbad : locationValuesBad loc = false := by
    unfold locationValuesBad
    match h : loc.Values with
    | none => rfl
    | some r =>
      rw [h] at hv
      simp only [RawOptValid] at hv
      simp [hv]
  by_cases hs : loc.Source = "" ∧ loc.Event = "" ∧ loc.Handler = "" ∧ loc.Target = "" ∧
      loc.Swap = "" ∧ loc.Values = none ∧ loc.Headers = []
  · simp [Location.HeaderValue, hs, locationValueOk, locationShortForm]
  · simp [Location.HeaderValue, hs, locationValueOk, locationShortForm,
      locationMarshal, hbad]

theorem addLocationHeader_eq {h : ResponseHeaders}
    (hv : RawOptValid h.Location.Values = true) (header : HeaderList) :
    addLocationHeader h header = .ok (header ++ locSeg h) := by
  by_cases hp : h.Location.Path = ""
  · simp [addLocationHeader, locSeg, hp]
  · simp [addLocationHeader, locSeg, hp, headerValue_ok hv, headerAdd]

theorem addPushURLHeader_eq (h : ResponseHeaders) (header : HeaderList) :
    addPushURLHeader h header = header ++ pushSeg h := by
  by_cases hp : h.PushURL = "" <;> simp [addPushURLHeader, pushSeg, hp, headerAdd]

theorem addRedirectHeader_eq (h : ResponseHeaders) (header : HeaderList) :
    addRedirectHeader h header = header ++ redirectSeg h := by
  by_cases hp : h.Redirect = "" <;> simp [addRedirectHeader, redirectSeg, hp, headerAdd]

theorem addRefreshHeader_eq (h : ResponseHeaders) (header : HeaderList) :
    addRefreshHeader h header = header ++ refreshSeg h := by
  cases hp : h.Refresh <;> simp [addRefreshHeader, refreshSeg, hp, headerAdd]

theorem addReplaceURLHeader_eq (h : ResponseHeaders) (header : HeaderList) :
    addReplaceURLHeader h header = header ++ replaceSeg h := by
  by_cases hp : h.ReplaceURL = "" <;> simp [addReplaceURLHeader, replaceSeg, hp, headerAdd]

theorem addReswapHeader_eq (h : ResponseHeaders) (header : HeaderList) :
    addReswapHeader h header = header ++ reswapSeg h := by
  by_cases hp : h.Reswap = "" <;> simp [addReswapHeader, reswapSeg, hp, headerAdd]

theorem addRetargetHeader_eq (h : ResponseHeaders) (header : HeaderList) :
    addRetargetHeader h header = header ++ retargetSeg h := by
  by_cases hp : h.Retarget = "" <;> simp [addRetargetHeader, retargetSeg, hp, headerAdd]

theorem addReselectHeader_eq (h : ResponseHeaders) (header : HeaderList) :
    addReselectHeader h header = header ++ reselectSeg h := by
  by_cases hp : h.Reselect = "" <;> simp [addReselectHeader, reselectSeg, hp, headerAdd]

theorem addTriggerHeader_eq {h : ResponseHeaders}
    (hv : payloadsValid h.Trigger = true) (header : HeaderList) :
    addTriggerHeader h header = .ok (header ++ triggerSeg h) := by
  match hm : h.Trigger with
  | none => simp [addTriggerHeader, triggerSeg, hm, triggerLen]
  | some l =>
    by_cases hl : l = []
    · subst hl; simp [addTriggerHeader, triggerSeg, hm, triggerLen]
    · have hv2 : l.all (fun kv => RawOptValid kv.2) = true := by
        rw [hm] at hv; simpa [payloadsValid] using hv
      have hlen : 0 < triggerLen (some l) := by
        simp [triggerLen, List.length_pos, hl]
      simp [addTriggerHeader, hm, hlen, eventTriggers_ok hv2 hl, triggerSeg, headerAdd]

theorem addTriggerAfterSettleHeader_eq {h : ResponseHeaders}
    (hv : payloadsValid h.TriggerAfterSettle = true) (header : HeaderList) :
    addTriggerAfterSettleHeader h header = .ok (header ++ settleSeg h) := by
  match hm : h.TriggerAfterSettle with
  | none => simp [addTriggerAfterSettleHeader, settleSeg, hm, triggerLen]
  | some l =>
    by_cases hl : l = []
    · subst hl; simp [addTriggerAfterSettleHeader, settleSeg, hm, triggerLen]
    · have hv2 : l.all (fun kv => RawOptValid kv.2) = true := by
        rw [hm] at hv; simpa [payloadsValid] using hv
      have hlen : 0 < triggerLen (some l) := by
        simp [triggerLen, List.length_pos, hl]
      simp [addTriggerAfterSettleHeader, hm, hlen, eventTriggers_ok hv2 hl, settleSeg, headerAdd]

theorem addTriggerAfterSwapHeader_eq {h : ResponseHeaders}
    (hv : payloadsValid h.TriggerAfterSwap = true) (header : HeaderList) :
    addTriggerAfterSwapHeader h header = .ok (header ++ swapSeg h) := by
  match hm : h.TriggerAfterSwap with
  | none => simp [addTriggerAfterSwapHeader, swapSeg, hm, triggerLen]
  | some l =>
    by_cases hl : l = []
    · subst hl; simp [addTriggerAfterSwapHeader, swapSeg, hm, triggerLen]
    · have hv2 : l.all (fun kv => RawOptValid kv.2) = true := by
        rw [hm] at hv; simpa [payloadsValid] using hv
      have hlen : 0 < triggerLen (some l) := by
        simp [triggerLen, List.length_pos, hl]
      simp [addTriggerAfterSwapHeader, hm, hlen, eventTriggers_ok hv2 hl, swapSeg, headerAdd]

theorem addHeaders_ok {h : ResponseHeaders} (hw : Wellformed h = true)
    (header : HeaderList) :
    h.AddHeaders header = .ok (header ++ pairsOf h) := by
  simp only [Wellformed, Bool.and_eq_true] at hw
  obtain ⟨⟨⟨hv, ht⟩, hts⟩, htw⟩ := hw
  simp [ResponseHeaders.AddHeaders,
    addLocationHeader_eq hv, addPushURLHeader_eq, addRedirectHeader_eq,
    addRefreshHeader_eq, addReplaceURLHeader_eq, addReswapHeader_eq,
    addRetargetHeader_eq, addReselectHeader_eq,
    addTriggerHeader_eq ht, addTriggerAfterSettleHeader_eq hts,
    addTriggerAfterSwapHeader_eq htw, pairsOf, List.append_assoc]

theorem pairsOf_map_fst (h : ResponseHeaders) :
    (pairsOf h).map Prod.fst = activeNames h := by
  simp [pairsOf, activeNames, locSeg, pushSeg, redirectSeg, refreshSeg, replaceSeg,
    reswapSeg, retargetSeg, reselectSeg, triggerSeg, settleSeg, swapSeg,
    apply_ite (List.map (Prod.fst (α := String) (β := String)))]

theorem seg_sublist_cons {α : Type} (c : Prop) [Decidable c] (x : α) {t tAll : List α}
    (ht : t.Sublist tAll) : ((if c then [x] else []) ++ t).Sublist (x :: tAll) := by
  by_cases hc : c
  · simpa [hc] using ht.cons₂ x
  · simpa [hc] using ht.cons x

theorem seg_sublist_single {α : Type} (c : Prop) [Decidable c] (x : α) :
    (if c then [x] else []).Sublist [x] := by
  by_cases hc : c <;> simp [hc]

theorem activeNames_sublist (h : ResponseHeaders) :
    (activeNames h).Sublist ["HX-Location", "HX-Push-Url", "HX-Redirect", "HX-Refresh",
      "HX-Replace-Url", "HX-Reswap", "HX-Retarget", "HX-Reselect", "HX-Trigger",
      "HX-Trigger-After-Settle", "HX-Trigger-After-Swap"] := by
  unfold activeNames
  simp only [List.append_assoc]
  apply seg_sublist_cons
  apply seg_sublist_cons
  apply seg_sublist_cons
  apply seg_sublist_cons
  apply seg_sublist_cons
  apply seg_sublist_cons
  apply seg_sublist_cons
  apply seg_sublist_cons
  apply seg_sublist_cons
  apply seg_sublist_cons
  apply seg_sublist_single

theorem activeNames_nodup (h : ResponseHeaders) : (activeNames h).Nodup :=
  List.Nodup.sublist (activeNames_sublist h) (by decide)

/-! ## Lemmas about the trigger maps and the setters -/

theorem mapInsert_twice (k : String) (v1 v2 : JSON) (m : TriggerMap) :
    mapInsert k v2 (mapInsert k v1 m) = mapInsert k v2 m := by
  induction m with
  | nil => simp [mapInsert, lt_self_iff_false]
  | cons p rest ih =>
    by_cases h1 : k < p.1
    · simp [mapInsert, h1, lt_self_iff_false]
    · by_cases h2 : k = p.1
      · simp [mapInsert, h1, h2, lt_self_iff_false]
      · simp [mapInsert, h1, h2, ih]

theorem mem_mapInsert {q : String × JSON} {k : String} {v : JSON} :
    ∀ {m : TriggerMap}, q ∈ mapInsert k v m → q = (k, v) ∨ q ∈ m := by
  intro m
  induction m with
  | nil => simp [mapInsert]
  | cons p rest ih =>
    simp only [mapInsert]
    split_ifs with h1 h2
    · simp only [List.mem_cons]
      tauto
    · simp only [List.mem_cons]
      tauto
    · simp only [List.mem_cons]
      rintro (rfl | hq)
      · tauto
      · rcases ih hq with rfl | hq2 <;> tauto

theorem mapInsert_pairwise {k : String} {v : JSON} :
    ∀ {m : TriggerMap}, m.Pairwise (fun a b => a.1 < b.1) →
      (mapInsert k v m).Pairwise (fun a b => a.1 < b.1) := by
  intro m
  induction m with
  | nil => simp [mapInsert]
  | cons p rest ih =>
    intro hp
    rw [List.pairwise_cons] at hp
    obtain ⟨hr1, hr2⟩ := hp
    simp only [mapInsert]
    split_ifs with h1 h2
    · rw [List.pairwise_cons, List.pairwise_cons]
      refine ⟨fun q hq => ?_, hr1, hr2⟩
      rcases List.mem_cons.mp hq with rfl | hq2
      · exact h1
      · exact h1.trans (hr1 q hq2)
    · rw [List.pairwise_cons]
      exact ⟨fun q hq => h2 ▸ hr1 q hq, hr2⟩
    · have hpk : p.1 < k := lt_of_le_of_ne (le_of_not_lt h1) (Ne.symm h2)
      rw [List.pairwise_cons]
      refine ⟨fun q hq => ?_, ih hr2⟩
      rcases mem_mapInsert hq with rfl | hq2
      · exact hpk
      · exact hr1 q hq2

theorem mapInsert_keys_nodup {k : String} {v : JSON} {m : TriggerMap}
    (hm : m.Pairwise (fun a b => a.1 < b.1)) :
    ((mapInsert k v m).map Prod.fst).Nodup := by
  have hp := mapInsert_pairwise (k := k) (v := v) hm
  have hmap : ((mapInsert k v m).map Prod.fst).Pairwise (fun a b => a < b) :=
    List.Pairwise.map Prod.fst (fun a b hab => hab) hp
  exact hmap.imp ne_of_lt

theorem mapInsert_all {P : String × JSON → Bool} {k : String} {v : JSON} :
    ∀ {m : TriggerMap}, m.all P = true → P (k, v) = true →
      (mapInsert k v m).all P = true := by
  intro m
  induction m with
  | nil => intro _ hv; simp [mapInsert, hv]
  | cons p rest ih =>
    intro hm hv
    rw [List.all_cons, Bool.and_eq_true] at hm
    by_cases h1 : k < p.1
    · simp [mapInsert, h1, hv, hm.1, hm.2]
    · by_cases h2 : k = p.1
      · subst h2
        simp [mapInsert, lt_self_iff_false, hv, hm.2]
      · simp [mapInsert, h1, h2, hv, hm.1, ih hm.2 hv]

theorem applySetter_eq_D {op : SetterOp} {h : ResponseHeaders}
    (hA : Allocated h = true) :
    applySetter op h = .ok (applySetterD op h) := by
  simp only [Allocated, Bool.and_eq_true, Option.isSome_iff_exists] at hA
  obtain ⟨⟨⟨l1, hl1⟩, l2, hl2⟩, l3, hl3⟩ := hA
  cases op with
  | trigger name data =>
    cases data with
    | none => simp [applySetter, applySetterD, Trigger, mapAssign, hl1]
    | some v =>
      cases v <;> simp [applySetter, applySetterD, Trigger, jsonMarshal, mapAssign, hl1]
  | triggerAfterSettle name data =>
    cases data with
    | none => simp [applySetter, applySetterD, TriggerAfterSettle, mapAssign, hl2]
    | some v =>
      cases v <;>
        simp [applySetter, applySetterD, TriggerAfterSettle, jsonMarshal, mapAssign, hl2]
  | triggerAfterSwap name data =>
    cases data with
    | none => simp [applySetter, applySetterD, TriggerAfterSwap, mapAssign, hl3]
    | some v =>
      cases v <;>
        simp [applySetter, applySetterD, TriggerAfterSwap, jsonMarshal, mapAssign, hl3]
  | _ => simp [applySetter, applySetterD, LocationPath, FullLocation, PushURL, PreventPushURL, Redirect, Refresh, ReplaceURL, PreventReplaceURL, Reswap, Retarget, Reselect]

theorem allocated_applySetterD {op : SetterOp} {h : ResponseHeaders}
    (hA : Allocated h = true) :
    Allocated (applySetterD op h) = true := by
  have hA2 := hA
  simp only [Allocated, Bool.and_eq_true, Option.isSome_iff_exists] at hA2
  obtain ⟨⟨⟨l1, hl1⟩, l2, hl2⟩, l3, hl3⟩ := hA2
  cases op with
  | trigger name data =>
    cases data with
    | none => simp [applySetterD, applySetter, Trigger, mapAssign, hl1, Allocated, hl2, hl3]
    | some v =>
      cases v <;>
        simp [applySetterD, applySetter, Trigger, jsonMarshal, mapAssign, hl1, Allocated,
          hl2, hl3]
  | triggerAfterSettle name data =>
    cases data with
    | none =>
      simp [applySetterD, applySetter, TriggerAfterSettle, mapAssign, hl2, Allocated, hl1, hl3]
    | some v =>
      cases v <;>
        simp [applySetterD, applySetter, TriggerAfterSettle, jsonMarshal, mapAssign, hl2,
          Allocated, hl1, hl3]
  | triggerAfterSwap name data =>
    cases data with
    | none =>
      simp [applySetterD, applySetter, TriggerAfterSwap, mapAssign, hl3, Allocated, hl1, hl2]
    | some v =>
      cases v <;>
        simp [applySetterD, applySetter, TriggerAfterSwap, jsonMarshal, mapAssign, hl3,
          Allocated, hl1, hl2]
  | _ => simp_all [applySetterD, applySetter, LocationPath, FullLocation, PushURL, PreventPushURL, Redirect, Refresh, ReplaceURL, PreventReplaceURL, Reswap, Retarget, Reselect, Allocated]

theorem wellformed_applySetterD {op : SetterOp} {h : ResponseHeaders}
    (hA : Allocated h = true) (hW : Wellformed h = true) (hop : setterWF op = true) :
    Wellformed (applySetterD op h) = true := by
  simp only [Allocated, Bool.and_eq_true, Option.isSome_iff_exists] at hA
  obtain ⟨⟨⟨l1, hl1⟩, l2, hl2⟩, l3, hl3⟩ := hA
  simp only [Wellformed, Bool.and_eq_true] at hW
  obtain ⟨⟨⟨hv, ht⟩, hts⟩, htw⟩ := hW
  cases op with
  | locationPath p =>
    have hD : applySetterD (SetterOp.locationPath p) h =
        { h with Location := ⟨p, "", "", "", "", "", none, []⟩ } := rfl
    rw [hD]
    simp only [Wellformed, payloadsValid, Bool.and_eq_true]
    exact ⟨⟨⟨rfl, ht⟩, hts⟩, htw⟩
  | fullLocation loc =>
    simp only [setterWF] at hop
    have hD : applySetterD (SetterOp.fullLocation loc) h = { h with Location := loc } := rfl
    rw [hD]
    simp only [Wellformed, payloadsValid, Bool.and_eq_true]
    exact ⟨⟨⟨hop, ht⟩, hts⟩, htw⟩
  | trigger name data =>
    simp only [payloadsValid, hl1, Option.getD_some] at ht
    cases data with
    | none =>
      have hall := mapInsert_all (P := fun kv => RawOptValid kv.2) (k := name) (v := none)
        (m := l1) ht rfl
      have hD : applySetterD (SetterOp.trigger name none) h =
          { h with Trigger := some (mapInsert name none l1) } := by
        simp [applySetterD, applySetter, Trigger, mapAssign, hl1]
      rw [hD]
      simp only [Wellformed, payloadsValid, Option.getD_some, Bool.and_eq_true]
      exact ⟨⟨⟨hv, hall⟩, hts⟩, htw⟩
    | some v =>
      cases v with
      | unmarshalable m =>
        have hD : applySetterD (SetterOp.trigger name (some (GoValue.unmarshalable m))) h = h := by
          simp [applySetterD, applySetter, Trigger, jsonMarshal]
        rw [hD]
        simp only [Wellformed, payloadsValid, hl1, Option.getD_some, Bool.and_eq_true]
        exact ⟨⟨⟨hv, ht⟩, hts⟩, htw⟩
      | jsonable b =>
        have hall := mapInsert_all (P := fun kv => RawOptValid kv.2) (k := name)
          (v := some ⟨b, true⟩) (m := l1) ht rfl
        have hD : applySetterD (SetterOp.trigger name (some (GoValue.jsonable b))) h =
            { h with Trigger := some (mapInsert name (some ⟨b, true⟩) l1) } := by
          simp [applySetterD, applySetter, Trigger, jsonMarshal, mapAssign, hl1]
        rw [hD]
        simp only [Wellformed, payloadsValid, Option.getD_some, Bool.and_eq_true]
        exact ⟨⟨⟨hv, hall⟩, hts⟩, htw⟩
  | triggerAfterSettle name data =>
    simp only [payloadsValid, hl2, Option.getD_some] at hts
    cases data with
    | none =>
      have hall := mapInsert_all (P := fun kv => RawOptValid kv.2) (k := name) (v := none)
        (m := l2) hts rfl
      have hD : applySetterD (SetterOp.triggerAfterSettle name none) h =
          { h with TriggerAfterSettle := some (mapInsert name none l2) } := by
        simp [applySetterD, applySetter, TriggerAfterSettle, mapAssign, hl2]
      rw [hD]
      simp only [Wellformed, payloadsValid, Option.getD_some, Bool.and_eq_true]
      exact ⟨⟨⟨hv, ht⟩, hall⟩, htw⟩
    | some v =>
      cases v with
      | unmarshalable m =>
        have hD : applySetterD
            (SetterOp.triggerAfterSettle name (some (GoValue.unmarshalable m))) h = h := by
          simp [applySetterD, applySetter, TriggerAfterSettle, jsonMarshal]
        rw [hD]
        simp only [Wellformed, payloadsValid, hl2, Option.getD_some, Bool.and_eq_true]
        exact ⟨⟨⟨hv, ht⟩, hts⟩, htw⟩
      | jsonable b =>
        have hall := mapInsert_all (P := fun kv => RawOptValid kv.2) (k := name)
          (v := some ⟨b, true⟩) (m := l2) hts rfl
        have hD : applySetterD (SetterOp.triggerAfterSettle name (some (GoValue.jsonable b))) h =
            { h with TriggerAfterSettle := some (mapInsert name (some ⟨b, true⟩) l2) } := by
          simp [applySetterD, applySetter, TriggerAfterSettle, jsonMarshal, mapAssign, hl2]
        rw [hD]
        simp only [Wellformed, payloadsValid, Option.getD_some, Bool.and_eq_true]
        exact ⟨⟨⟨hv, ht⟩, hall⟩, htw⟩
  | triggerAfterSwap name data =>
    simp only [payloadsValid, hl3, Option.getD_some] at htw
    cases data with
    | none =>
      have hall := mapInsert_all (P := fun kv => RawOptValid kv.2) (k := name) (v := none)
        (m := l3) htw rfl
      have hD : applySetterD (SetterOp.triggerAfterSwap name none) h =
          { h with TriggerAfterSwap := some (mapInsert name none l3) } := by
        simp [applySetterD, applySetter, TriggerAfterSwap, mapAssign, hl3]
      rw [hD]
      simp only [Wellformed, payloadsValid, Option.getD_some, Bool.and_eq_true]
      exact ⟨⟨⟨hv, ht⟩, hts⟩, hall⟩
    | some v =>
      cases v with
      | unmarshalable m =>
        have hD : applySetterD
            (SetterOp.triggerAfterSwap name (some (GoValue.unmarshalable m))) h = h := by
          simp [applySetterD, applySetter, TriggerAfterSwap, jsonMarshal]
        rw [hD]
        simp only [Wellformed, payloadsValid, hl3, Option.getD_some, Bool.and_eq_true]
        exact ⟨⟨⟨hv, ht⟩, hts⟩, htw⟩
      | jsonable b =>
        have hall := mapInsert_all (P := fun kv => RawOptValid kv.2) (k := name)
          (v := some ⟨b, true⟩) (m := l3) htw rfl
        have hD : applySetterD (SetterOp.triggerAfterSwap name (some (GoValue.jsonable b))) h =
            { h with TriggerAfterSwap := some (mapInsert name (some ⟨b, true⟩) l3) } := by
          simp [applySetterD, applySetter, TriggerAfterSwap, jsonMarshal, mapAssign, hl3]
        rw [hD]
        simp only [Wellformed, payloadsValid, Option.getD_some, Bool.and_eq_true]
        exact ⟨⟨⟨hv, ht⟩, hts⟩, hall⟩
  | _ => simp_all [applySetterD, applySetter, LocationPath, FullLocation, PushURL, PreventPushURL, Redirect, Refresh, ReplaceURL, PreventReplaceURL, Reswap, Retarget, Reselect, Wellformed]

/-! ## Lemmas about the middleware run -/

theorem handleFrom_postFlush :
    ∀ (ops : List HandlerOp) (h : ResponseHeaders) (w : Wrapper),
      Allocated h = true → w.wroteHeaders = true →
      handleFrom ops h w =
        .ok { w with body := w.body ++ bodyOf ops, status := w.status ++ statusOf ops } := by
  intro ops
  induction ops with
  | nil =>
    intro h w hA hw
    obtain ⟨whdr, wbody, wstatus, wflag⟩ := w
    simp at hw
    subst hw
    simp [handleFrom, serve, writeHXHeader, bodyOf, statusOf]
  | cons op rest ih =>
    intro h w hA hw
    cases op with
    | set s =>
      have h1 : handleFrom (HandlerOp.set s :: rest) h w =
          handleFrom rest (applySetterD s h) w := by
        simp [handleFrom, serve, applySetter_eq_D hA]
      rw [h1, ih _ _ (allocated_applySetterD hA) hw]
      simp [bodyOf, statusOf]
    | write d =>
      have h1 : handleFrom (HandlerOp.write d :: rest) h w =
          handleFrom rest h { w with body := w.body ++ [d] } := by
        simp [handleFrom, serve, writeHXHeader, hw]
      rw [h1, ih _ _ hA (by simp [hw])]
      simp [bodyOf, statusOf]
    | writeHeader c =>
      have h1 : handleFrom (HandlerOp.writeHeader c :: rest) h w =
          handleFrom rest h { w with status := w.status ++ [c] } := by
        simp [handleFrom, serve, writeHXHeader, hw]
      rw [h1, ih _ _ hA (by simp [hw])]
      simp [bodyOf, statusOf]

theorem handleFrom_preFlush :
    ∀ (ops : List HandlerOp) (h : ResponseHeaders) (w : Wrapper),
      Allocated h = true → Wellformed h = true → opsWF ops = true →
      w.wroteHeaders = false →
      handleFrom ops h w =
        .ok { hdr := w.hdr ++ pairsOf (recordAtFlush ops h),
              body := w.body ++ bodyOf ops,
              status := w.status ++ statusOf ops,
              wroteHeaders := true } := by
  intro ops
  induction ops with
  | nil =>
    intro h w hA hW _ hw
    simp [handleFrom, serve, writeHXHeader, hw, addHeaders_ok hW, recordAtFlush,
      bodyOf, statusOf]
  | cons op rest ih =>
    intro h w hA hW hops hw
    simp only [opsWF, List.all_cons, Bool.and_eq_true] at hops
    obtain ⟨hop1, hops2⟩ := hops
    cases op with
    | set s =>
      have hop2 : setterWF s = true := hop1
      have h1 : handleFrom (HandlerOp.set s :: rest) h w =
          handleFrom rest (applySetterD s h) w := by
        simp [handleFrom, serve, applySetter_eq_D hA]
      rw [h1, ih _ _ (allocated_applySetterD hA)
        (wellformed_applySetterD hA hW hop2) hops2 hw]
      simp [recordAtFlush, bodyOf, statusOf]
    | write d =>
      have h1 : handleFrom (HandlerOp.write d :: rest) h w =
          handleFrom rest h ⟨w.hdr ++ pairsOf h, w.body ++ [d], w.status, true⟩ := by
        simp [handleFrom, serve, writeHXHeader, hw, addHeaders_ok hW]
      rw [h1, handleFrom_postFlush rest h _ hA (by simp)]
      simp [recordAtFlush, bodyOf, statusOf]
    | writeHeader c =>
      have h1 : handleFrom (HandlerOp.writeHeader c :: rest) h w =
          handleFrom rest h ⟨w.hdr ++ pairsOf h, w.body, w.status ++ [c], true⟩ := by
        simp [handleFrom, serve, writeHXHeader, hw, addHeaders_ok hW]
      rw [h1, handleFrom_postFlush rest h _ hA (by simp)]
      simp [recordAtFlush, bodyOf, statusOf]

/-! ## The claims -/

/-- Claim C1: for every request processed through the middleware, the
accumulated headers are serialized and written to the transport exactly
once, at the first of: the first body write, the first status-code
commit, or the end of the handler chain; every later flush attempt is a
no-op. Formally: the whole run emits exactly the header lines of the
record as it stood at the first flush trigger (`recordAtFlush`),
appended once to the response header collection, while all body chunks
and status codes pass through. -/
theorem c1_flush_exactly_once (ops : List HandlerOp) (hdr0 : HeaderList)
    (hops : opsWF ops = true) :
    middlewareHandle ops hdr0 =
      .ok ⟨hdr0 ++ pairsOf (recordAtFlush ops freshRecord),
        bodyOf ops, statusOf ops, true⟩ := by
  have h := handleFrom_preFlush ops freshRecord ⟨hdr0, [], [], false⟩
    (by decide) (by decide) hops rfl
  simpa [middlewareHandle] using h

/-- Witness for C1: a chain that retargets, writes a body chunk, then
mutates the record again and writes once more; the headers carry only
the pre-first-write state, each line once, and both body chunks pass
through. -/
theorem c1_flush_exactly_once_witness :
    middlewareHandle [HandlerOp.set (SetterOp.retarget "#main"), HandlerOp.write "Hello",
      HandlerOp.set (SetterOp.redirect "/next"), HandlerOp.write "!"] [] =
      .ok ⟨[("HX-Retarget", "#main")], ["Hello", "!"], [], true⟩ :=
  (c1_flush_exactly_once
    [HandlerOp.set (SetterOp.retarget "#main"), HandlerOp.write "Hello",
      HandlerOp.set (SetterOp.redirect "/next"), HandlerOp.write "!"] []
    (by decide)).trans rfl

/-- Claim C2: a trigger mapping serializes to the comma-joined plain
list of its event names exactly when every entry's payload is nil; if
at least one entry has a payload, it serializes to one JSON object
keyed by the event names, with `null` for payload-less entries. (Event
names are assumed non-empty; `1` is the length the comma contributes to
the builder's size hint.) -/
theorem c2_trigger_value_encoding (l : TriggerMap) (hne : l ≠ [])
    (hk : ∀ p ∈ l, p.1 ≠ "") :
    ((l.all fun kv => kv.2.isNone) = true →
      eventTriggersToHeaderValue (some l) =
        .ok (String.intercalate "," (l.map Prod.fst))) ∧
    ((l.any fun kv => kv.2.isSome) = true →
      (l.all fun kv => RawOptValid kv.2) = true →
      eventTriggersToHeaderValue (some l) =
        .ok ("\x7b" ++ String.intercalate ","
          (l.map fun kv => jsonQuote kv.1 ++ ":" ++ rawOrNull kv.2) ++ "\x7d")) := by
  constructor
  · intro hall
    have hv : (l.all fun kv => RawOptValid kv.2) = true := by
      rw [List.all_eq_true] at hall ⊢
      intro kv hkv
      have h2 := hall kv hkv
      rcases kv with ⟨a, b⟩
      cases b
      · rfl
      · simp at h2
    rw [eventTriggers_ok hv hne]
    simp [triggersValueOk, hall, commaJoin_eq_intercalate l hne hk]
  · intro hany hv
    rw [eventTriggers_ok hv hne]
    have hall : (l.all fun kv => kv.2.isNone) = false := by
      rw [any_isSome_eq_not_all_isNone] at hany
      cases hAll2 : l.all fun kv => kv.2.isNone
      · rfl
      · rw [hAll2] at hany
        simp at hany
    simp [triggersValueOk, hall]

/-- Witness for C2: three nil-payload events yield the plain list
`a,b,c`; the spec's mixed example yields the JSON object with the
stored payload and a JSON `null`, not the plain-list form. -/
theorem c2_trigger_value_encoding_witness :
    eventTriggersToHeaderValue (some [("a", none), ("b", none), ("c", none)]) =
      .ok "a,b,c" ∧
    eventTriggersToHeaderValue
        (some [("reload-nav", some ⟨"\x7b\"ActiveEntry\":\"foo\"\x7d", true⟩),
          ("update-cart", none)]) =
      .ok "\x7b\"reload-nav\":\x7b\"ActiveEntry\":\"foo\"\x7d,\"update-cart\":null\x7d" := by
  constructor
  · exact ((c2_trigger_value_encoding [("a", none), ("b", none), ("c", none)]
      (by decide) (by decide)).1 (by decide)).trans rfl
  · exact ((c2_trigger_value_encoding
      [("reload-nav", some ⟨"\x7b\"ActiveEntry\":\"foo\"\x7d", true⟩), ("update-cart", none)]
      (by decide) (by decide)).2 (by decide) (by decide)).trans rfl

/-- Claim C3: serializing the location yields the bare path exactly
when every sub-field other than the path is empty/nil; once any other
sub-field is set, the value is the JSON serialization of the whole
descriptor (provided the stored raw `Values`, if any, are valid JSON,
as setter-produced payloads are), never the bare-string form. -/
theorem c3_location_header_value (loc : Location) :
    (locationShortForm loc = true → loc.HeaderValue = .ok loc.Path) ∧
    (locationShortForm loc = false → RawOptValid loc.Values = true →
      loc.HeaderValue = .ok (locationObjString loc)) := by
  constructor
  · intro hs
    simp only [locationShortForm, decide_eq_true_eq] at hs
    simp [Location.HeaderValue, hs]
  · intro hs hv
    rw [headerValue_ok hv]
    simp [locationValueOk, hs]

/-- Witness for C3: path `/test` alone yields the verbatim short form;
path `/test` plus target `#main` yields the JSON object
`{"path":"/test","target":"#main"}`. -/
theorem c3_location_header_value_witness :
    Location.HeaderValue ⟨"/test", "", "", "", "", "", none, []⟩ = .ok "/test" ∧
    Location.HeaderValue ⟨"/test", "", "", "", "#main", "", none, []⟩ =
      .ok "\x7b\"path\":\"/test\",\"target\":\"#main\"\x7d" := by
  constructor
  · exact (c3_location_header_value ⟨"/test", "", "", "", "", "", none, []⟩).1 (by decide)
  · exact ((c3_location_header_value ⟨"/test", "", "", "", "#main", "", none, []⟩).2
      (by decide) (by decide)).trans rfl

/-- Claim C4 (code bug): the `Location` setter is supposed to marshal
the user-supplied `Values` payload at setter time and report an
encoding error naming the field. As written, `LocationData.toHeader`
tests `h.Values != nil` on the header struct it has just built without
a `Values` field — the test is always false, so the marshalling branch
is dead: no input ever produces an error, and the `Values` payload is
silently dropped from the emitted header. -/
theorem c4_location_values_never_error (d : LocationData) :
    d.toHeader =
      (⟨d.Path, d.Source, d.Event, d.Handler, d.Target, d.Swap, none, d.Headers⟩, none) := by
  simp [LocationData.toHeader]

/-- Claim C5: a flush pass emits exactly one header line per field not
at its empty sentinel and none for a field at its sentinel: the pass
appends precisely `pairsOf`, whose names are exactly the active-field
names, without duplicates. -/
theorem c5_one_pair_per_nonempty_field (h : ResponseHeaders) (header : HeaderList)
    (hw : Wellformed h = true) :
    h.AddHeaders header = .ok (header ++ pairsOf h) ∧
    (pairsOf h).map Prod.fst = activeNames h ∧
    (activeNames h).Nodup :=
  ⟨addHeaders_ok hw header, pairsOf_map_fst h, activeNames_nodup h⟩

/-- Witness for C5: flushing a record on which no setter was ever
called writes zero header lines. -/
theorem c5_one_pair_per_nonempty_field_witness :
    freshRecord.AddHeaders [] = .ok [] ∧ pairsOf freshRecord = [] := by
  have h := c5_one_pair_per_nonempty_field freshRecord [] (by decide)
  exact ⟨h.1.trans rfl, by decide⟩

/-- Claim C6: last write wins, for every field's setter. Calling any
setter with `a` and then with `b` leaves the record identical to
calling it only with `b` (so `a` cannot appear anywhere in the flushed
output, and the field holds exactly `b`); the `Prevent` variants
overwrite and are overwritten the same way; and upserting the same
event name twice into a trigger map replaces the payload instead of
appending, keeping the keys unique. -/
theorem c6_last_write_wins (h : ResponseHeaders) (a b k : String) (bl1 bl2 : Bool)
    (la lb : Location) (v1 v2 : JSON)
    (m : TriggerMap) (hm : m.Pairwise fun p q => p.1 < q.1) :
    (LocationPath b (LocationPath a h) = LocationPath b h ∧
      (LocationPath b h).Location.Path = b) ∧
    (FullLocation lb (FullLocation la h) = FullLocation lb h ∧
      (FullLocation lb h).Location = lb) ∧
    (PushURL b (PushURL a h) = PushURL b h ∧ (PushURL b h).PushURL = b) ∧
    (PushURL b (PreventPushURL h) = PushURL b h ∧
      PreventPushURL (PushURL a h) = PreventPushURL h) ∧
    (Redirect b (Redirect a h) = Redirect b h ∧ (Redirect b h).Redirect = b) ∧
    (Refresh bl2 (Refresh bl1 h) = Refresh bl2 h ∧ (Refresh bl2 h).Refresh = bl2) ∧
    (ReplaceURL b (ReplaceURL a h) = ReplaceURL b h ∧ (ReplaceURL b h).ReplaceURL = b) ∧
    (ReplaceURL b (PreventReplaceURL h) = ReplaceURL b h ∧
      PreventReplaceURL (ReplaceURL a h) = PreventReplaceURL h) ∧
    (Reswap b (Reswap a h) = Reswap b h ∧ (Reswap b h).Reswap = b) ∧
    (Retarget b (Retarget a h) = Retarget b h ∧
      (Retarget b h).Retarget = b ∧
      pairsOf (Retarget b (Retarget a h)) = pairsOf (Retarget b h)) ∧
    (Reselect b (Reselect a h) = Reselect b h ∧ (Reselect b h).Reselect = b) ∧
    (mapInsert k v2 (mapInsert k v1 m) = mapInsert k v2 m ∧
      ((mapInsert k v2 m).map Prod.fst).Nodup) :=
  ⟨⟨rfl, rfl⟩, ⟨rfl, rfl⟩, ⟨rfl, rfl⟩, ⟨rfl, rfl⟩, ⟨rfl, rfl⟩, ⟨rfl, rfl⟩,
    ⟨rfl, rfl⟩, ⟨rfl, rfl⟩, ⟨rfl, rfl⟩, ⟨rfl, rfl, rfl⟩, ⟨rfl, rfl⟩,
    mapInsert_twice k v1 v2 m, mapInsert_keys_nodup hm⟩

/-- Witness for C6 at concrete values: retarget `#a` then `#b` equals
retargeting `#b` alone, push-url `/a` then `/b` equals pushing only
`/b`, and a second upsert for event `evt` replaces the first payload. -/
theorem c6_last_write_wins_witness :
    Retarget "#b" (Retarget "#a" freshRecord) = Retarget "#b" freshRecord ∧
    PushURL "#b" (PushURL "#a" freshRecord) = PushURL "#b" freshRecord ∧
    mapInsert "evt" (some ⟨"2", true⟩) (mapInsert "evt" (some ⟨"1", true⟩) [("x", none)]) =
      mapInsert "evt" (some ⟨"2", true⟩) [("x", none)] := by
  have h := c6_last_write_wins freshRecord "#a" "#b" "evt" false true
    ⟨"", "", "", "", "", "", none, []⟩ ⟨"", "", "", "", "", "", none, []⟩
    (some ⟨"1", true⟩) (some ⟨"2", true⟩) [("x", none)] (by decide)
  exact ⟨h.2.2.2.2.2.2.2.2.2.1.1, h.2.2.1.1, h.2.2.2.2.2.2.2.2.2.2.2.1⟩

/-- Claim C7: looking up the bound record on a request to which no
record was ever attached aborts with a type-assertion panic; it never
yields a record. -/
theorem c7_response_lookup_panics :
    Response none =
      .error "interface conversion: interface \x7b\x7d is nil, not *htmx.ResponseHeaders" ∧
    (Response none).isOk = false :=
  ⟨rfl, rfl⟩

/-- Claim C8: internal serialization at flush never fails. On a record
whose stored payloads are valid JSON (as all setter-produced payloads
are), the panic branches of `Location.HeaderValue` and
`eventTriggersToHeaderValue` are unreachable — including the negative
`Grow` panic of the comma-join branch, which `AddHeaders` invokes only
on non-empty maps — and the whole flush succeeds. -/
theorem c8_flush_never_panics (h : ResponseHeaders) (header : HeaderList)
    (hw : Wellformed h = true) :
    (∃ v, h.Location.HeaderValue = .ok v) ∧
    (0 < triggerLen h.Trigger →
      ∃ v, eventTriggersToHeaderValue h.Trigger = .ok v) ∧
    (0 < triggerLen h.TriggerAfterSettle →
      ∃ v, eventTriggersToHeaderValue h.TriggerAfterSettle = .ok v) ∧
    (0 < triggerLen h.TriggerAfterSwap →
      ∃ v, eventTriggersToHeaderValue h.TriggerAfterSwap = .ok v) ∧
    (∃ out, h.AddHeaders header = .ok out) := by
  have hw2 := hw
  simp only [Wellformed, Bool.and_eq_true] at hw2
  obtain ⟨⟨⟨hv, ht⟩, hts⟩, htw⟩ := hw2
  refine ⟨⟨_, headerValue_ok hv⟩, ?_, ?_, ?_, ⟨_, addHeaders_ok hw header⟩⟩
  · intro hlen
    cases hm : h.Trigger with
    | none => rw [hm] at hlen; simp [triggerLen] at hlen
    | some l =>
      rw [hm] at hlen ht
      simp only [triggerLen, List.length_pos] at hlen
      simp only [payloadsValid, Option.getD_some] at ht
      exact ⟨_, eventTriggers_ok ht hlen⟩
  · intro hlen
    cases hm : h.TriggerAfterSettle with
    | none => rw [hm] at hlen; simp [triggerLen] at hlen
    | some l =>
      rw [hm] at hlen hts
      simp only [triggerLen, List.length_pos] at hlen
      simp only [payloadsValid, Option.getD_some] at hts
      exact ⟨_, eventTriggers_ok hts hlen⟩
  · intro hlen
    cases hm : h.TriggerAfterSwap with
    | none => rw [hm] at hlen; simp [triggerLen] at hlen
    | some l =>
      rw [hm] at hlen htw
      simp only [triggerLen, List.length_pos] at hlen
      simp only [payloadsValid, Option.getD_some] at htw
      exact ⟨_, eventTriggers_ok htw hlen⟩

/-- Witness for C8: a record holding one valid marshalled trigger
payload flushes successfully. -/
theorem c8_flush_never_panics_witness :
    (({ freshRecord with
        Trigger := some [("evt", some ⟨"1", true⟩)] } : ResponseHeaders).AddHeaders []).isOk =
      true := by
  obtain ⟨h1, h2, h3, h4, out, hout⟩ :=
    c8_flush_never_panics
      { freshRecord with Trigger := some [("evt", some ⟨"1", true⟩)] } [] (by decide)
  rw [hout]
  rfl

/-- Claim C9: the request snapshot is absent exactly when the inbound
`HX-Request` header is not the literal `true`; when it is `true`, the
snapshot maps the two flag headers by comparison with `true` and copies
the five string headers verbatim. -/
theorem c9_request_snapshot (get : String → String) :
    (Request get = none ↔ get "HX-Request" ≠ "true") ∧
    (get "HX-Request" = "true" →
      Request get = some ⟨get "HX-Boosted" == "true", get "HX-Current-Url",
        get "HX-History-Restore-Request" == "true", get "HX-Prompt", get "HX-Target",
        get "HX-Trigger-Name", get "HX-Trigger"⟩) := by
  refine ⟨⟨fun hn hr => ?_, fun hr => ?_⟩, fun hr => ?_⟩
  · simp [Request, hr] at hn
  · simp [Request, hr]
  · simp [Request, hr]

/-- Witness for C9: a request with `HX-Request: true` and
`HX-Boosted: true` yields a boosted snapshot; a request without the
signalling header yields no snapshot at all. -/
theorem c9_request_snapshot_witness :
    Request (fun n => if n = "HX-Request" then "true"
      else if n = "HX-Boosted" then "true" else "") =
      some ⟨true, "", false, "", "", "", ""⟩ ∧
    Request (fun _ => "") = none := by
  constructor
  · exact ((c9_request_snapshot (fun n => if n = "HX-Request" then "true"
      else if n = "HX-Boosted" then "true" else "")).2 (by decide)).trans (by decide)
  · exact ((c9_request_snapshot (fun _ => "")).1).mpr (by decide)

/-- Claim C10: the middleware-attached record starts with its three
trigger maps allocated and every other field at its sentinel (so it
flushes zero lines), map assignment into an allocated record's trigger
maps is always defined (never the nil-map panic), and no setter ever
replaces a trigger map with nil. -/
theorem c10_maps_always_allocated (op : SetterOp) (h : ResponseHeaders)
    (t : String) (d : JSON) (hA : Allocated h = true) :
    Allocated freshRecord = true ∧
    pairsOf freshRecord = [] ∧
    (mapAssign h.Trigger t d).isOk = true ∧
    (mapAssign h.TriggerAfterSettle t d).isOk = true ∧
    (mapAssign h.TriggerAfterSwap t d).isOk = true ∧
    applySetter op h = .ok (applySetterD op h) ∧
    Allocated (applySetterD op h) = true := by
  have hA2 := hA
  simp only [Allocated, Bool.and_eq_true, Option.isSome_iff_exists] at hA2
  obtain ⟨⟨⟨l1, hl1⟩, l2, hl2⟩, l3, hl3⟩ := hA2
  refine ⟨by decide, by decide, ?_, ?_, ?_, applySetter_eq_D hA, allocated_applySetterD hA⟩
  · rw [hl1]; rfl
  · rw [hl2]; rfl
  · rw [hl3]; rfl

/-- Witness for C10: on the fresh record, assigning a nil-payload
trigger is defined and the `Trigger` setter succeeds. -/
theorem c10_maps_always_allocated_witness :
    (mapAssign freshRecord.Trigger "evt" none).isOk = true ∧
    applySetter (SetterOp.trigger "evt" none) freshRecord =
      .ok (applySetterD (SetterOp.trigger "evt" none) freshRecord) := by
  have h := c10_maps_always_allocated (SetterOp.trigger "evt" none) freshRecord
    "evt" none (by decide)
  exact ⟨h.2.2.1, h.2.2.2.2.2.1⟩

end Htmx
